import Mathlib

/-!
Verification of the TF-IDF question-answering service in
`src/nango_qa_api1/src/main.rs`: the CSV persistence layer
(`out_csv`, `out_csv_word`, `read_model_csv`, `read_word_list_csv`),
the response assembly (`make_json`), the invocation-event validation
(`ExecMode::new`), the training entry point (`learn`), and the idf
formula of the model builder.

The `csv` crate used by the source is modelled at character level.
The writers are configured with `QuoteStyle::Always`, so every field
is written quoted, inner quotes doubled, and a record ends with the
default terminator `'\n'`; a record with zero fields writes only the
terminator, a blank line.  The reader is the crate's quote-aware state
machine; like the crate's reader it yields no record for a blank line.
Rust `f64` weights are modelled by an abstract type `α` together with
a formatting and a parsing function, since the binary floating values
are not part of the record layout; the round-trip property of that
pair (the documented behaviour of `f64` `Display`/`FromStr`, which
round-trips exactly) is taken as a hypothesis where needed.
-/

namespace NangoQa

/-- Rust strings, modelled as lists of characters. -/
abbrev Str := List Char

/-! ## CSV encoding (csv crate writer, `QuoteStyle::Always`) -/

/-- Double every quote character, the CSV escaping rule inside a quoted field. -/
def escapeQuotes : Str → Str
  | [] => []
  | c :: cs => if c = '"' then '"' :: '"' :: escapeQuotes cs else c :: escapeQuotes cs

/-- One field as the writer emits it under `QuoteStyle::Always`: quoted, inner
quotes doubled. -/
def encodeField (s : Str) : Str := '"' :: (escapeQuotes s ++ ['"'])

/-- The fields of one record joined by commas. -/
def encFields : List Str → Str
  | [] => []
  | [f] => encodeField f
  | f :: g :: fs => encodeField f ++ ',' :: encFields (g :: fs)

/-- One record as written: comma-joined quoted fields plus the `'\n'`
terminator.  A record with zero fields is written as a bare terminator. -/
def encodeRecord (r : List Str) : Str := encFields r ++ ['\n']

/-- A whole file: the records written in order. -/
def encodeCsv : List (List Str) → Str
  | [] => []
  | r :: rs => encodeRecord r ++ encodeCsv rs

/-! ## CSV reading (csv crate reader state machine) -/

/-- Reader state: at the start of a record, at the start of a field after a
comma, inside an unquoted field, inside a quoted field, or just after a
closing quote. -/
inductive CsvMode where
  | recStart
  | fieldStart
  | unquoted
  | quoted
  | afterQuote

/-- The reader loop: input characters, current state, current field
(reversed), fields of the current record already complete (reversed).
A blank line at record start yields no record, as in the crate's reader. -/
def csvRun : Str → CsvMode → Str → List Str → List (List Str)
  | [], .recStart, _f, _r => []
  | [], .fieldStart, f, r => [(f.reverse :: r).reverse]
  | [], .unquoted, f, r => [(f.reverse :: r).reverse]
  | [], .quoted, f, r => [(f.reverse :: r).reverse]
  | [], .afterQuote, f, r => [(f.reverse :: r).reverse]
  | c :: cs, .recStart, f, r =>
    if c = '\n' then csvRun cs .recStart [] []
    else if c = '"' then csvRun cs .quoted f r
    else if c = ',' then csvRun cs .fieldStart [] (f.reverse :: r)
    else csvRun cs .unquoted (c :: f) r
  | c :: cs, .fieldStart, f, r =>
    if c = '\n' then (f.reverse :: r).reverse :: csvRun cs .recStart [] []
    else if c = '"' then csvRun cs .quoted f r
    else if c = ',' then csvRun cs .fieldStart [] (f.reverse :: r)
    else csvRun cs .unquoted (c :: f) r
  | c :: cs, .unquoted, f, r =>
    if c = '\n' then (f.reverse :: r).reverse :: csvRun cs .recStart [] []
    else if c = ',' then csvRun cs .fieldStart [] (f.reverse :: r)
    else csvRun cs .unquoted (c :: f) r
  | c :: cs, .quoted, f, r =>
    if c = '"' then csvRun cs .afterQuote f r
    else csvRun cs .quoted (c :: f) r
  | c :: cs, .afterQuote, f, r =>
    if c = '"' then csvRun cs .quoted ('"' :: f) r
    else if c = '\n' then (f.reverse :: r).reverse :: csvRun cs .recStart [] []
    else if c = ',' then csvRun cs .fieldStart [] (f.reverse :: r)
    else csvRun cs .quoted (c :: f) r

/-- Parse a whole file into its records. -/
def parseCsv (s : Str) : List (List Str) := csvRun s .recStart [] []

/-! ## The model data (`nlp::tf_idf::TfIdf`, fields as constructed in
`read_model_csv`, main.rs lines 417-420): a vocabulary and a weight matrix.
The Rust weight type `f64` is an abstract `α` here. -/

/-- The trained model: vocabulary terms and per-document weight rows. -/
structure TfIdf (α : Type) where
  word_vec : List Str
  tf_idf_vec : List (List α)
deriving DecidableEq

/-- Decimal text of a row id, Rust `index.to_string()`. -/
def decStr (n : Nat) : Str := (Nat.repr n).data

/-- The data rows as `out_csv` writes them (main.rs lines 438-443): the
enumeration index as decimal text, then the row's weights formatted. -/
def numberRows (fmt : α → Str) : Nat → List (List α) → List (List Str)
  | _, [] => []
  | i, row :: rows => (decStr i :: row.map fmt) :: numberRows fmt (i + 1) rows

/-- The records `out_csv` passes to the writer: the header
`"id"` followed by every vocabulary term, then one data row per document. -/
def out_csv_records (fmt : α → Str) (m : TfIdf α) : List (List Str) :=
  ("id".data :: m.word_vec) :: numberRows fmt 0 m.tf_idf_vec

/-- `out_csv` (main.rs lines 427-447).  The writer is not `flexible`, so a
data row whose width differs from the header's is a write error, modelled as
`none`; otherwise the emitted file is the encoded records. -/
def out_csv (fmt : α → Str) (m : TfIdf α) : Option Str :=
  if m.tf_idf_vec.all (fun row => row.length == m.word_vec.length)
  then some (encodeCsv (out_csv_records fmt m))
  else none

/-- `out_csv_word` (main.rs lines 449-463): the tokenized documents written
as variable-length records (`flexible` writer, so no width check). -/
def out_csv_word (docs : List (List Str)) : Str := encodeCsv docs

/-- `read_word_list_csv` (main.rs lines 374-391): read every record of the
word-list file (`flexible` reader, no header). -/
def read_word_list_csv (file : Str) : List (List Str) := parseCsv file

/-- First-failure traversal, the behaviour of the Rust loops that `unwrap`
or `?` each element: any failing element aborts the whole read. -/
def mapMOpt (f : β → Option γ) : List β → Option (List γ)
  | [] => some []
  | b :: bs =>
    match f b with
    | none => none
    | some g =>
      match mapMOpt f bs with
      | none => none
      | some gs => some (g :: gs)

/-- `read_model_csv` (main.rs lines 393-423).  The reader is not `flexible`,
so records of differing widths are a read error; an empty file panics at
`rec_v_v[0]`; the vocabulary is record 0 after the `"id"` cell; every cell of
every later record — including the id cell — is parsed as a weight, and a
failed parse panics (`unwrap`).  All failure modes are `none`. -/
def read_model_csv (parse : Str → Option α) (file : Str) : Option (TfIdf α) :=
  match parseCsv file with
  | [] => none
  | r0 :: rest =>
    if rest.all (fun rec => rec.length == r0.length) then
      match mapMOpt (fun rec => mapMOpt parse rec) rest with
      | none => none
      | some rows => some ⟨r0.drop 1, rows⟩
    else none

/-- The rows `read_model_csv` actually reconstructs from a file written by
`out_csv`: each original row with the parsed id cell prepended. -/
def idRows (ofNat : Nat → α) : Nat → List (List α) → List (List α)
  | _, [] => []
  | i, row :: rows => (ofNat i :: row) :: idRows ofNat (i + 1) rows

/-! ## The invocation surface (`ExecMode::new`, main.rs lines 198-240) -/

/-- The constant access key (main.rs line 21). -/
def STR_PKEY : String := "nango7_ai_nango_kun"

/-- Execution modes: training, or prediction carrying the query sentence. -/
inductive ExecMode where
  | Learn : ExecMode
  | Predict : String → ExecMode
deriving DecidableEq

/-- An invocation event.  The source reads each field with
`params[name].as_str().unwrap_or("")`, so an absent field and a non-string
field alike behave as `""`; both are modelled as `none`. -/
structure Event where
  mode : Option String
  que_sentence : Option String
  pkey : Option String

/-- `ExecMode::new` (main.rs lines 205-239): the access key is checked
first; then mode `"l"` is training, mode `"p"` with a nonempty query
sentence is prediction, and anything else is an error. -/
def ExecMode.new (event : Event) : Except String ExecMode :=
  if (event.pkey.getD "").length = 0 ∨ event.pkey.getD "" ≠ STR_PKEY then
    Except.error "Not executable"
  else if event.mode.getD "" = "l" then Except.ok ExecMode.Learn
  else if event.mode.getD "" = "p" then
    if (event.que_sentence.getD "").length > 0 then
      Except.ok (ExecMode.Predict (event.que_sentence.getD ""))
    else Except.error "予測時は、質問文を入力してください。"
  else Except.error "学習: l、予測: p を指定してください。"

/-! ## Response assembly (`make_json`, main.rs lines 305-327) -/

/-- The question/answer store read from the corpus file
(main.rs lines 352-356). -/
structure QaData where
  que_vec : List String
  ans_vec : List String

/-- One entry of the `qa_infos` payload array. -/
structure QaInfo where
  que : String
  ans : String
  cos_val : Rat
  similar_que : String
deriving DecidableEq

/-- The response `make_json` builds: the constant envelope plus the
`qa_infos` payload. -/
structure MakeJsonRes where
  code : Nat
  success : Bool
  mode : String
  qa_infos : List QaInfo
deriving DecidableEq

/-- The loop of `make_json` (main.rs lines 307-316): every `(id, cos_val)`
pair with `cos_val > 0.3` contributes one entry carrying the query, the
answer at index `id`, the score and the stored question at index `id`;
indexing out of range is a Rust panic, modelled as `none`.  Cosine scores
are modelled as rationals, the threshold as `3/10`. -/
def qa_infos_loop (que_sentence : String) (qa_data : QaData) :
    List (Nat × Rat) → Option (List QaInfo)
  | [] => some []
  | (id, cos_val) :: rest =>
    if 3/10 < cos_val then
      match qa_data.ans_vec[id]?, qa_data.que_vec[id]? with
      | some a, some q =>
        match qa_infos_loop que_sentence qa_data rest with
        | none => none
        | some tl => some (⟨que_sentence, a, cos_val, q⟩ :: tl)
      | _, _ => none
    else qa_infos_loop que_sentence qa_data rest

/-- `make_json` (main.rs lines 305-327): the envelope is constant, the
payload is the loop's list. -/
def make_json (que_sentence : String) (qa_data : QaData)
    (ans_vec : List (Nat × Rat)) : Option MakeJsonRes :=
  match qa_infos_loop que_sentence qa_data ans_vec with
  | none => none
  | some infos => some ⟨200, true, "predict", infos⟩

/-! ## Training (`learn`, main.rs lines 253-283) -/

/-- The two persisted resources: the tokenized-corpus table
`output/word_list.csv` and the model table `output/model_qa1.csv`. -/
structure PersistState where
  word_list : Str
  model_qa : Str
deriving DecidableEq

/-- `learn` (main.rs lines 253-283), over an explicit state of the two
persisted files.  The external effects are parameters: `corpus` is the
result of `read_csv` (`none` a read error), `tok` the external tokenizer
(`none` a tokenizer panic), `tfidf_of` is `nlp::tf_idf::TfIdf::get_tf_idf`,
and the two `Ok` flags say whether the corresponding csv write reaches disk
whole; a write that fails midway leaves the file holding the given partly
written content, since `from_path` truncates the file before writing.  On
any failure `learn` exits (`std::process::exit(1)` / `?`), modelled by the
`false` flag next to the state reached. -/
def learn (tok : String → Option (List Str)) (tfidf_of : List (List Str) → TfIdf α)
    (fmt : α → Str) (corpus : Option QaData)
    (wordOk modelOk : Bool) (wordFailContent modelFailContent : Str)
    (st : PersistState) : PersistState × Bool :=
  match corpus with
  | none => (st, false)
  | some qa_data =>
    match mapMOpt tok qa_data.que_vec with
    | none => (st, false)
    | some docs =>
      if wordOk then
        match out_csv fmt (tfidf_of docs) with
        | none => (⟨out_csv_word docs, modelFailContent⟩, false)
        | some enc =>
          if modelOk then (⟨out_csv_word docs, enc⟩, true)
          else (⟨out_csv_word docs, modelFailContent⟩, false)
      else (⟨wordFailContent, st.model_qa⟩, false)

/-! ## The idf formula -/

/-- Modelled from the spec: the `nlp::tf_idf` module is not under `src/`;
§4.1 of the specification defines the smoothed inverse document frequency
as `idf(t) = ln(N / (1 + df(t)))` for corpus size `N` and document
frequency `df(t)`. -/
noncomputable def idf (N df : Nat) : Real :=
  Real.log ((N : Real) / (1 + (df : Real)))

/-! ## Single-step reductions of the reader on the characters the writer emits -/

theorem run_recStart_nl (cs : Str) (f : Str) (r : List Str) :
    csvRun ('\n' :: cs) .recStart f r = csvRun cs .recStart [] [] := by
  simp only [csvRun]
  rw [if_pos trivial]

theorem run_recStart_quote (cs : Str) (f : Str) (r : List Str) :
    csvRun ('"' :: cs) .recStart f r = csvRun cs .quoted f r := by
  simp only [csvRun]
  rw [if_neg (show ¬('"' : Char) = '\n' by decide), if_pos trivial]

theorem run_fieldStart_quote (cs : Str) (f : Str) (r : List Str) :
    csvRun ('"' :: cs) .fieldStart f r = csvRun cs .quoted f r := by
  simp only [csvRun]
  rw [if_neg (show ¬('"' : Char) = '\n' by decide), if_pos trivial]

theorem run_quoted_quote (cs : Str) (f : Str) (r : List Str) :
    csvRun ('"' :: cs) .quoted f r = csvRun cs .afterQuote f r := by
  simp only [csvRun]
  rw [if_pos trivial]

theorem run_quoted_other (c : Char) (cs : Str) (f : Str) (r : List Str) (hc : ¬c = '"') :
    csvRun (c :: cs) .quoted f r = csvRun cs .quoted (c :: f) r := by
  simp only [csvRun]
  rw [if_neg hc]

theorem run_afterQuote_quote (cs : Str) (f : Str) (r : List Str) :
    csvRun ('"' :: cs) .afterQuote f r = csvRun cs .quoted ('"' :: f) r := by
  simp only [csvRun]
  rw [if_pos trivial]

theorem run_afterQuote_comma (cs : Str) (f : Str) (r : List Str) :
    csvRun (',' :: cs) .afterQuote f r = csvRun cs .fieldStart [] (f.reverse :: r) := by
  simp only [csvRun]
  rw [if_neg (show ¬(',' : Char) = '"' by decide),
    if_neg (show ¬(',' : Char) = '\n' by decide), if_pos trivial]

theorem run_afterQuote_nl (cs : Str) (f : Str) (r : List Str) :
    csvRun ('\n' :: cs) .afterQuote f r
      = (f.reverse :: r).reverse :: csvRun cs .recStart [] [] := by
  simp only [csvRun]
  rw [if_neg (show ¬('\n' : Char) = '"' by decide), if_pos trivial]

/-! ## Round trip of the codec -/

theorem csvRun_escape (s : Str) : ∀ (f : Str) (r : List Str) (rest : Str),
    csvRun (escapeQuotes s ++ '"' :: rest) .quoted f r
      = csvRun rest .afterQuote (s.reverse ++ f) r := by
  induction s with
  | nil =>
    intro f r rest
    simp only [escapeQuotes, List.nil_append, List.reverse_nil]
    exact run_quoted_quote rest f r
  | cons c cs ih =>
    intro f r rest
    by_cases hc : c = '"'
    · subst hc
      simp only [escapeQuotes, if_pos trivial, List.cons_append]
      rw [run_quoted_quote, run_afterQuote_quote, ih ('"' :: f) r rest]
      simp
    · simp only [escapeQuotes, if_neg hc, List.cons_append]
      rw [run_quoted_other c _ _ _ hc, ih (c :: f) r rest]
      simp

theorem csvRun_encodeField (s : Str) (r : List Str) (rest : Str) (m : CsvMode)
    (hm : m = CsvMode.recStart ∨ m = CsvMode.fieldStart) :
    csvRun (encodeField s ++ rest) m [] r = csvRun rest .afterQuote s.reverse r := by
  have h1 : encodeField s ++ rest = '"' :: (escapeQuotes s ++ '"' :: rest) := by
    simp [encodeField, List.append_assoc]
  have key : csvRun (escapeQuotes s ++ '"' :: rest) .quoted [] r
      = csvRun rest .afterQuote s.reverse r := by
    rw [csvRun_escape s [] r rest, List.append_nil]
  rcases hm with h | h <;> subst h <;> rw [h1]
  · rw [run_recStart_quote]; exact key
  · rw [run_fieldStart_quote]; exact key

theorem csvRun_encFields (fs : List Str) : ∀ (f : Str) (r : List Str) (rest : Str),
    csvRun (encFields (f :: fs) ++ '\n' :: rest) .fieldStart [] r
      = (r.reverse ++ f :: fs) :: csvRun rest .recStart [] [] := by
  induction fs with
  | nil =>
    intro f r rest
    have h1 : encFields [f] = encodeField f := rfl
    rw [h1, csvRun_encodeField f r ('\n' :: rest) _ (Or.inr rfl), run_afterQuote_nl]
    simp
  | cons g gs ih =>
    intro f r rest
    have h1 : encFields (f :: g :: gs) ++ '\n' :: rest
        = encodeField f ++ (',' :: (encFields (g :: gs) ++ '\n' :: rest)) := by
      simp [encFields, List.append_assoc]
    rw [h1, csvRun_encodeField f r _ _ (Or.inr rfl), run_afterQuote_comma,
      show (List.reverse (List.reverse f)) = f by simp, ih g (f :: r) rest]
    simp

theorem csvRun_record (fs : List Str) (rest : Str) :
    csvRun (encodeRecord fs ++ rest) .recStart [] []
      = (if fs.isEmpty then [] else [fs]) ++ csvRun rest .recStart [] [] := by
  cases fs with
  | nil =>
    simp only [encodeRecord, encFields, List.nil_append, List.cons_append, List.isEmpty_nil]
    rw [run_recStart_nl]
    simp
  | cons f fs =>
    cases fs with
    | nil =>
      have h1 : encodeRecord [f] ++ rest = encodeField f ++ ('\n' :: rest) := by
        simp [encodeRecord, encFields, List.append_assoc]
      rw [h1, csvRun_encodeField f [] ('\n' :: rest) _ (Or.inl rfl), run_afterQuote_nl]
      simp
    | cons g gs =>
      have h1 : encodeRecord (f :: g :: gs) ++ rest
          = encodeField f ++ (',' :: (encFields (g :: gs) ++ '\n' :: rest)) := by
        simp [encodeRecord, encFields, List.append_assoc]
      rw [h1, csvRun_encodeField f [] _ _ (Or.inl rfl), run_afterQuote_comma,
        show (List.reverse (List.reverse f)) = f by simp, csvRun_encFields gs g [f] rest]
      simp

/-- Writing records and reading them back yields exactly the records, except
that zero-field records (written as blank lines) are dropped by the reader. -/
theorem parseCsv_encodeCsv (rs : List (List Str)) :
    parseCsv (encodeCsv rs) = rs.filter (fun r => !r.isEmpty) := by
  unfold parseCsv
  induction rs with
  | nil => rfl
  | cons r rs ih =>
    show csvRun (encodeRecord r ++ encodeCsv rs) .recStart [] [] = _
    rw [csvRun_record r (encodeCsv rs), ih]
    cases r with
    | nil => simp
    | cons f fs => simp [List.filter]

/-! ## Reading back what `out_csv` wrote -/

theorem mapMOpt_map (parse : Str → Option α) (fmt : α → Str) (l : List α)
    (h : ∀ x ∈ l, parse (fmt x) = some x) :
    mapMOpt parse (l.map fmt) = some l := by
  induction l with
  | nil => rfl
  | cons x xs ih =>
    have hx : parse (fmt x) = some x := h x (List.mem_cons_self x xs)
    have hxs := ih (fun y hy => h y (List.mem_cons_of_mem x hy))
    simp only [List.map_cons, mapMOpt, hx, hxs]

theorem mapMOpt_numberRows (parse : Str → Option α) (fmt : α → Str) (ofNat : Nat → α)
    (rows : List (List α)) : ∀ (k : Nat),
    (∀ i, i < rows.length → parse (decStr (k + i)) = some (ofNat (k + i))) →
    (∀ row ∈ rows, ∀ x ∈ row, parse (fmt x) = some x) →
    mapMOpt (fun rec => mapMOpt parse rec) (numberRows fmt k rows)
      = some (idRows ofNat k rows) := by
  induction rows with
  | nil => intro k _ _; rfl
  | cons row rows ih =>
    intro k hid hfmt
    have h0 : parse (decStr k) = some (ofNat k) := by
      have := hid 0 (by simp)
      simpa using this
    have hrow : mapMOpt parse (row.map fmt) = some row :=
      mapMOpt_map parse fmt row (hfmt row (List.mem_cons_self row rows))
    have hrest : mapMOpt (fun rec => mapMOpt parse rec) (numberRows fmt (k + 1) rows)
        = some (idRows ofNat (k + 1) rows) := by
      refine ih (k + 1) (fun i hi => ?_) (fun r hr x hx => hfmt r (List.mem_cons_of_mem row hr) x hx)
      have := hid (i + 1) (by simpa using Nat.succ_lt_succ hi)
      have harith : k + (i + 1) = k + 1 + i := by omega
      rwa [harith] at this
    simp only [numberRows, idRows, mapMOpt, h0, hrow, hrest]

theorem numberRows_not_empty (fmt : α → Str) (rows : List (List α)) :
    ∀ (k : Nat), ∀ rec ∈ numberRows fmt k rows, rec.isEmpty = false := by
  induction rows with
  | nil => intro k rec hrec; simp [numberRows] at hrec
  | cons row rows ih =>
    intro k rec hrec
    rcases List.mem_cons.mp hrec with h | h
    · subst h; rfl
    · exact ih (k + 1) rec h

theorem numberRows_width (fmt : α → Str) (rows : List (List α)) (M : Nat)
    (hw : ∀ row ∈ rows, row.length = M) :
    ∀ (k : Nat), ∀ rec ∈ numberRows fmt k rows, rec.length = M + 1 := by
  induction rows with
  | nil => intro k rec hrec; simp [numberRows] at hrec
  | cons row rows ih =>
    intro k rec hrec
    rcases List.mem_cons.mp hrec with h | h
    · subst h
      simp [hw row (List.mem_cons_self row rows)]
    · exact ih (fun r hr => hw r (List.mem_cons_of_mem row hr)) (k + 1) rec h

theorem numberRows_getElem (fmt : α → Str) (rows : List (List α)) :
    ∀ (k i : Nat) (row : List α), rows[i]? = some row →
      (numberRows fmt k rows)[i]? = some (decStr (k + i) :: row.map fmt) := by
  induction rows with
  | nil => intro k i row h; simp at h
  | cons r rs ih =>
    intro k i row h
    cases i with
    | zero =>
      simp only [List.getElem?_cons_zero, Option.some.injEq] at h
      subst h
      simp [numberRows]
    | succ j =>
      simp only [List.getElem?_cons_succ] at h
      have := ih (k + 1) j row h
      have harith : k + 1 + j = k + (j + 1) := by omega
      rw [harith] at this
      simpa [numberRows] using this

/-- The file `out_csv` writes parses back into exactly the records it wrote:
the header is nonempty and every data row starts with its id cell, so the
reader's blank-line rule drops nothing. -/
theorem parseCsv_out_csv_records (fmt : α → Str) (m : TfIdf α) :
    parseCsv (encodeCsv (out_csv_records fmt m)) = out_csv_records fmt m := by
  rw [parseCsv_encodeCsv]
  refine List.filter_eq_self.mpr ?_
  intro rec hrec
  rcases List.mem_cons.mp hrec with h | h
  · subst h; rfl
  · have := numberRows_not_empty fmt m.tf_idf_vec 0 rec h
    simp [this]

theorem numberRows_length (fmt : α → Str) (rows : List (List α)) :
    ∀ (k : Nat), (numberRows fmt k rows).length = rows.length := by
  induction rows with
  | nil => intro k; rfl
  | cons row rows ih => intro k; simp [numberRows, ih (k + 1)]

theorem read_model_csv_of_parse (parse : Str → Option α) (file : Str)
    (r0 : List Str) (rest : List (List Str)) (rows : List (List α))
    (hp : parseCsv file = r0 :: rest)
    (hall : rest.all (fun rec => rec.length == r0.length) = true)
    (hrows : mapMOpt (fun rec => mapMOpt parse rec) rest = some rows) :
    read_model_csv parse file = some ⟨r0.drop 1, rows⟩ := by
  unfold read_model_csv
  rw [hp]
  simp [hall, hrows]

theorem out_csv_records_getElem (fmt : α → Str) (m : TfIdf α) (i : Nat)
    (row : List α) (hrow : m.tf_idf_vec[i]? = some row) :
    (out_csv_records fmt m)[i + 1]? = some (decStr i :: row.map fmt) := by
  have h := numberRows_getElem fmt m.tf_idf_vec 0 i row hrow
  simp only [out_csv_records, List.getElem?_cons_succ]
  simpa using h

theorem mapMOpt_eq_none (f : β → Option γ) (l : List β) (x : β)
    (hx : x ∈ l) (hfx : f x = none) : mapMOpt f l = none := by
  induction l with
  | nil => simp at hx
  | cons b bs ih =>
    rcases List.mem_cons.mp hx with h | h
    · subst h; simp [mapMOpt, hfx]
    · cases hfb : f b with
      | none => simp [mapMOpt, hfb]
      | some g => simp [mapMOpt, hfb, ih h]

/-! ## Claim C1: write-then-read round trip of the model -/

/-- C1 (counterexample): round-tripping a one-document model through
`out_csv` and `read_model_csv` does not reproduce it — `read_model_csv`
parses every cell of a data row, including the id cell, so the
reconstructed row has the parsed row id prepended.  Weight formatting and
parsing are instantiated with the identity pair, which round-trips
exactly, so the failure is the id column, not the number format. -/
theorem c1_round_trip_counterexample :
    read_model_csv (fun s : Str => some s)
        ((out_csv (fun s : Str => s) ⟨[['t']], [[['5']]]⟩).getD [])
      ≠ some ⟨[['t']], [[['5']]]⟩
    ∧ (out_csv (fun s : Str => s) ⟨[['t']], [[['5']]]⟩).isSome = true := by
  decide

/-- C1 (amended): for a model whose rows match the vocabulary width,
writing with `out_csv` and reading with `read_model_csv` reconstructs the
vocabulary exactly, and reconstructs row `i` as the original row with the
parsed id cell prepended, provided weight formatting round-trips through
parsing and the decimal ids parse (as `f64` text does in the source). -/
theorem c1_round_trip_amended {α : Type} (fmt : α → Str) (parse : Str → Option α)
    (ofNat : Nat → α) (m : TfIdf α)
    (hwf : ∀ row ∈ m.tf_idf_vec, row.length = m.word_vec.length)
    (hfmt : ∀ row ∈ m.tf_idf_vec, ∀ x ∈ row, parse (fmt x) = some x)
    (hid : ∀ i, i < m.tf_idf_vec.length → parse (decStr i) = some (ofNat i)) :
    ∃ file, out_csv fmt m = some file ∧
      read_model_csv parse file = some ⟨m.word_vec, idRows ofNat 0 m.tf_idf_vec⟩ := by
  have hall : m.tf_idf_vec.all (fun row => row.length == m.word_vec.length) = true :=
    List.all_eq_true.mpr fun row hr => by simpa using hwf row hr
  refine ⟨encodeCsv (out_csv_records fmt m), ?_, ?_⟩
  · simp [out_csv, hall]
  · have hp : parseCsv (encodeCsv (out_csv_records fmt m)) = out_csv_records fmt m :=
      parseCsv_out_csv_records fmt m
    have hwidth : ∀ rec ∈ numberRows fmt 0 m.tf_idf_vec,
        rec.length = m.word_vec.length + 1 :=
      numberRows_width fmt m.tf_idf_vec m.word_vec.length hwf 0
    have hall2 : (numberRows fmt 0 m.tf_idf_vec).all
        (fun rec => rec.length == ("id".data :: m.word_vec).length) = true :=
      List.all_eq_true.mpr fun rec hr => by simp [hwidth rec hr]
    have hrows : mapMOpt (fun rec => mapMOpt parse rec) (numberRows fmt 0 m.tf_idf_vec)
        = some (idRows ofNat 0 m.tf_idf_vec) := by
      refine mapMOpt_numberRows parse fmt ofNat m.tf_idf_vec 0 (fun i hi => ?_) hfmt
      simpa using hid i hi
    have hres := read_model_csv_of_parse parse (encodeCsv (out_csv_records fmt m))
      ("id".data :: m.word_vec) (numberRows fmt 0 m.tf_idf_vec)
      (idRows ofNat 0 m.tf_idf_vec) hp hall2 hrows
    simpa using hres

/-- C1 (witness): the amended round trip at a concrete one-row model with
the identity formatting pair. -/
theorem c1_round_trip_witness :
    ∃ file, out_csv (fun s : Str => s) ⟨[['t']], [[['5']]]⟩ = some file ∧
      read_model_csv (fun s : Str => some s) file
        = some ⟨[['t']], idRows decStr 0 [[['5']]]⟩ :=
  c1_round_trip_amended (fun s : Str => s) (fun s : Str => some s) decStr
    ⟨[['t']], [[['5']]]⟩ (by decide) (by decide) (by decide)

/-! ## Claim C8: the record layout `out_csv` writes -/

/-- C8: for a model whose `N` rows each have the vocabulary's width `M`,
`out_csv` succeeds and its file holds exactly `1 + N` records: record 0 is
`"id"` followed by the `M` vocabulary terms in order, and record `1 + i` is
the decimal text of `i` followed by row `i`'s formatted weights in row
order. -/
theorem c8_out_csv_layout {α : Type} (fmt : α → Str) (m : TfIdf α)
    (hwf : ∀ row ∈ m.tf_idf_vec, row.length = m.word_vec.length) :
    ∃ file, out_csv fmt m = some file ∧
      (parseCsv file).length = 1 + m.tf_idf_vec.length ∧
      (parseCsv file).head? = some ("id".data :: m.word_vec) ∧
      ∀ i row, m.tf_idf_vec[i]? = some row →
        (parseCsv file)[i + 1]? = some (decStr i :: row.map fmt) := by
  have hall : m.tf_idf_vec.all (fun row => row.length == m.word_vec.length) = true :=
    List.all_eq_true.mpr fun row hr => by simpa using hwf row hr
  refine ⟨encodeCsv (out_csv_records fmt m), by simp [out_csv, hall], ?_, ?_, ?_⟩
  · rw [parseCsv_out_csv_records fmt m]
    simp [out_csv_records, numberRows_length]
    omega
  · rw [parseCsv_out_csv_records fmt m]; rfl
  · intro i row hrow
    rw [parseCsv_out_csv_records fmt m]
    exact out_csv_records_getElem fmt m i row hrow

/-- C8 (witness): the layout at a concrete two-row model. -/
theorem c8_out_csv_layout_witness :
    ∃ file, out_csv (fun s : Str => s) ⟨[['t'], ['u']], [[['5'], ['6']], [['7'], ['8']]]⟩
        = some file ∧
      (parseCsv file).length = 1 + 2 ∧
      (parseCsv file).head? = some ("id".data :: [['t'], ['u']]) ∧
      ∀ i row, ([[['5'], ['6']], [['7'], ['8']]] : List (List Str))[i]? = some row →
        (parseCsv file)[i + 1]? = some (decStr i :: row.map (fun s : Str => s)) :=
  c8_out_csv_layout (fun s : Str => s) ⟨[['t'], ['u']], [[['5'], ['6']], [['7'], ['8']]]⟩
    (by decide)

/-! ## Claim C5: a non-parsing weight cell aborts the model read -/

/-- C5: a persisted model table with a data-row cell on which the weight
parser fails yields no model: `read_model_csv` returns nothing (in the
source the `unwrap` panics, aborting the prediction). -/
theorem c5_bad_cell_aborts {α : Type} (parse : Str → Option α) (file : Str)
    (h : ∃ rec ∈ (parseCsv file).tail, ∃ c ∈ rec, parse c = none) :
    read_model_csv parse file = none := by
  obtain ⟨rec, hrec, c, hc, hpc⟩ := h
  cases hp : parseCsv file with
  | nil => simp [read_model_csv, hp]
  | cons r0 rest =>
    rw [hp] at hrec
    simp only [List.tail_cons] at hrec
    have hinner : mapMOpt parse rec = none := mapMOpt_eq_none parse rec c hc hpc
    have houter : mapMOpt (fun r => mapMOpt parse r) rest = none :=
      mapMOpt_eq_none _ rest rec hrec hinner
    by_cases hall : rest.all (fun r => r.length == r0.length) = true
    · simp [read_model_csv, hp, hall, houter]
    · simp [read_model_csv, hp, hall]

/-- C5 (witness): a concrete table whose single data cell never parses. -/
theorem c5_bad_cell_aborts_witness :
    read_model_csv (fun _ : Str => (none : Option Nat))
      (encodeCsv [["id".data], [['x']]]) = none :=
  c5_bad_cell_aborts (fun _ : Str => (none : Option Nat))
    (encodeCsv [["id".data], [['x']]]) (by decide)

/-! ## Claim C4: write-then-read round trip of the tokenized corpus -/

/-- C4 (counterexample): a document with zero tokens does not survive the
round trip — `out_csv_word` writes it as a blank line and
`read_word_list_csv` yields no record for a blank line, so the document is
dropped. -/
theorem c4_word_round_trip_counterexample :
    read_word_list_csv (out_csv_word [([] : List Str)]) ≠ [([] : List Str)] := by
  decide

/-- C4 (amended): for every sequence of nonempty tokenized documents,
writing with `out_csv_word` and reading with `read_word_list_csv` yields
the same sequence: document order, token order and token values are
preserved.  Documents with zero tokens are dropped instead. -/
theorem c4_word_round_trip_amended (docs : List (List Str))
    (h : ∀ d ∈ docs, d ≠ []) :
    read_word_list_csv (out_csv_word docs) = docs := by
  unfold read_word_list_csv out_csv_word
  rw [parseCsv_encodeCsv]
  refine List.filter_eq_self.mpr fun d hd => ?_
  cases hd2 : d with
  | nil => exact absurd hd2 (h d hd)
  | cons x xs => rfl

/-- C4 (witness): the round trip at a concrete two-document corpus. -/
theorem c4_word_round_trip_witness :
    read_word_list_csv (out_csv_word [[['a'], ['b']], [['c']]])
      = [[['a'], ['b']], [['c']]] :=
  c4_word_round_trip_amended [[['a'], ['b']], [['c']]] (by decide)

/-! ## Helpers for `make_json` and `ExecMode::new` -/

theorem getElem?_getD_str (l : List String) (i : Nat) (h : i < l.length) :
    l[i]? = some ((l[i]?).getD "") := by
  cases ho : l[i]? with
  | none =>
    have := List.getElem?_eq_none_iff.mp ho
    omega
  | some a => simp

theorem string_length_pos_of_ne (s : String) (h : ¬s = "") : 0 < s.length := by
  cases s with
  | mk data =>
    cases data with
    | nil => exact absurd rfl h
    | cons c cs => simp [String.length]

theorem qa_infos_loop_eq (que_sentence : String) (qa_data : QaData)
    (l : List (Nat × Rat))
    (h : ∀ p ∈ l, p.1 < qa_data.ans_vec.length ∧ p.1 < qa_data.que_vec.length) :
    qa_infos_loop que_sentence qa_data l
      = some ((l.filter (fun p => decide (3/10 < p.2))).map
          (fun p => ⟨que_sentence, (qa_data.ans_vec[p.1]?).getD "", p.2,
            (qa_data.que_vec[p.1]?).getD ""⟩)) := by
  induction l with
  | nil => rfl
  | cons p rest ih =>
    obtain ⟨id, c⟩ := p
    have hid := (h (id, c) (List.mem_cons_self _ _)).1
    have hq := (h (id, c) (List.mem_cons_self _ _)).2
    have hih := ih (fun q hq2 => h q (List.mem_cons_of_mem _ hq2))
    by_cases hc : 3/10 < c
    · rw [show qa_infos_loop que_sentence qa_data ((id, c) :: rest)
          = if 3/10 < c then
              (match qa_data.ans_vec[id]?, qa_data.que_vec[id]? with
                | some a, some q =>
                  (match qa_infos_loop que_sentence qa_data rest with
                    | none => none
                    | some tl => some (⟨que_sentence, a, c, q⟩ :: tl))
                | _, _ => none)
            else qa_infos_loop que_sentence qa_data rest from rfl,
        if_pos hc, getElem?_getD_str qa_data.ans_vec id hid,
        getElem?_getD_str qa_data.que_vec id hq, hih]
      simp [List.filter_cons, hc]
    · rw [show qa_infos_loop que_sentence qa_data ((id, c) :: rest)
          = if 3/10 < c then
              (match qa_data.ans_vec[id]?, qa_data.que_vec[id]? with
                | some a, some q =>
                  (match qa_infos_loop que_sentence qa_data rest with
                    | none => none
                    | some tl => some (⟨que_sentence, a, c, q⟩ :: tl))
                | _, _ => none)
            else qa_infos_loop que_sentence qa_data rest from rfl,
        if_neg hc, hih]
      simp [List.filter_cons, hc]

theorem qa_infos_loop_isSome (que_sentence : String) (qa_data : QaData)
    (l : List (Nat × Rat))
    (h : ∀ p ∈ l, 3/10 < p.2 →
      p.1 < qa_data.ans_vec.length ∧ p.1 < qa_data.que_vec.length) :
    (qa_infos_loop que_sentence qa_data l).isSome = true := by
  induction l with
  | nil => rfl
  | cons p rest ih =>
    obtain ⟨id, c⟩ := p
    have hih := ih (fun q hq2 hc2 => h q (List.mem_cons_of_mem _ hq2) hc2)
    by_cases hc : 3/10 < c
    · obtain ⟨h1, h2⟩ := h (id, c) (List.mem_cons_self _ _) hc
      rw [show qa_infos_loop que_sentence qa_data ((id, c) :: rest)
          = if 3/10 < c then
              (match qa_data.ans_vec[id]?, qa_data.que_vec[id]? with
                | some a, some q =>
                  (match qa_infos_loop que_sentence qa_data rest with
                    | none => none
                    | some tl => some (⟨que_sentence, a, c, q⟩ :: tl))
                | _, _ => none)
            else qa_infos_loop que_sentence qa_data rest from rfl,
        if_pos hc, getElem?_getD_str qa_data.ans_vec id h1,
        getElem?_getD_str qa_data.que_vec id h2]
      cases hrest : qa_infos_loop que_sentence qa_data rest with
      | none => rw [hrest] at hih; simp at hih
      | some tl => simp
    · rw [show qa_infos_loop que_sentence qa_data ((id, c) :: rest)
          = if 3/10 < c then
              (match qa_data.ans_vec[id]?, qa_data.que_vec[id]? with
                | some a, some q =>
                  (match qa_infos_loop que_sentence qa_data rest with
                    | none => none
                    | some tl => some (⟨que_sentence, a, c, q⟩ :: tl))
                | _, _ => none)
            else qa_infos_loop que_sentence qa_data rest from rfl,
        if_neg hc]
      exact hih

theorem qa_infos_loop_eq_none (que_sentence : String) (qa_data : QaData)
    (l : List (Nat × Rat))
    (h : ∃ p ∈ l, 3/10 < p.2 ∧
      (qa_data.ans_vec.length ≤ p.1 ∨ qa_data.que_vec.length ≤ p.1)) :
    qa_infos_loop que_sentence qa_data l = none := by
  induction l with
  | nil => simp at h
  | cons p rest ih =>
    obtain ⟨id, c⟩ := p
    obtain ⟨q, hq, hc, hb⟩ := h
    rw [show qa_infos_loop que_sentence qa_data ((id, c) :: rest)
        = if 3/10 < c then
            (match qa_data.ans_vec[id]?, qa_data.que_vec[id]? with
              | some a, some q =>
                (match qa_infos_loop que_sentence qa_data rest with
                  | none => none
                  | some tl => some (⟨que_sentence, a, c, q⟩ :: tl))
              | _, _ => none)
          else qa_infos_loop que_sentence qa_data rest from rfl]
    rcases List.mem_cons.mp hq with heq | hmem
    · subst heq
      rw [if_pos hc]
      rcases hb with hb | hb
      · rw [List.getElem?_eq_none hb]
      · rw [List.getElem?_eq_none hb]
        cases qa_data.ans_vec[id]? <;> rfl
    · have hih := ih ⟨q, hmem, hc, hb⟩
      by_cases hc2 : 3/10 < c
      · rw [if_pos hc2]
        cases qa_data.ans_vec[id]? <;> cases qa_data.que_vec[id]? <;>
          simp [hih]
      · rw [if_neg hc2]
        exact hih

/-! ## Claim C3: the `qa_infos` payload -/

/-- C3: when every listed id is a valid index into both stores, `make_json`
succeeds, and its `qa_infos` array holds exactly one entry per `(id, score)`
pair with score strictly above `3/10`, in input order, carrying the query,
the answer at index `id`, the score, and the stored question at index
`id`. -/
theorem c3_make_json_payload (que_sentence : String) (qa_data : QaData)
    (ans_vec : List (Nat × Rat))
    (h : ∀ p ∈ ans_vec, p.1 < qa_data.ans_vec.length ∧ p.1 < qa_data.que_vec.length) :
    make_json que_sentence qa_data ans_vec = some ⟨200, true, "predict",
      (ans_vec.filter (fun p => decide (3/10 < p.2))).map
        (fun p => ⟨que_sentence, (qa_data.ans_vec[p.1]?).getD "", p.2,
          (qa_data.que_vec[p.1]?).getD ""⟩)⟩ := by
  unfold make_json
  rw [qa_infos_loop_eq que_sentence qa_data ans_vec h]

/-- C3 (witness): the payload at a concrete store and score list, one score
above and one below the threshold. -/
theorem c3_make_json_payload_witness :
    make_json "q" ⟨["q0", "q1"], ["a0", "a1"]⟩ [(0, 1/2), (1, 1/5)]
      = some ⟨200, true, "predict",
        (([(0, 1/2), (1, 1/5)] : List (Nat × Rat)).filter
            (fun p => decide (3/10 < p.2))).map
          (fun p => ⟨"q", ((["a0", "a1"] : List String)[p.1]?).getD "", p.2,
            ((["q0", "q1"] : List String)[p.1]?).getD ""⟩)⟩ :=
  c3_make_json_payload "q" ⟨["q0", "q1"], ["a0", "a1"]⟩ [(0, 1/2), (1, 1/5)]
    (by decide)

/-! ## Claim C10: the bounds precondition of `make_json` -/

/-- C10: when every above-threshold id is in bounds for both stores, the
out-of-bounds branch of `make_json` is unreachable and it returns a result;
when some above-threshold id is out of bounds for either store, `make_json`
aborts and returns nothing rather than a partial result. -/
theorem c10_make_json_bounds (que_sentence : String) (qa_data : QaData)
    (ans_vec : List (Nat × Rat)) :
    ((∀ p ∈ ans_vec, 3/10 < p.2 →
        p.1 < qa_data.ans_vec.length ∧ p.1 < qa_data.que_vec.length) →
      (make_json que_sentence qa_data ans_vec).isSome = true) ∧
    ((∃ p ∈ ans_vec, 3/10 < p.2 ∧
        (qa_data.ans_vec.length ≤ p.1 ∨ qa_data.que_vec.length ≤ p.1)) →
      make_json que_sentence qa_data ans_vec = none) := by
  constructor
  · intro h
    have hs := qa_infos_loop_isSome que_sentence qa_data ans_vec h
    unfold make_json
    cases hl : qa_infos_loop que_sentence qa_data ans_vec with
    | none => rw [hl] at hs; simp at hs
    | some infos => simp
  · intro h
    have hn := qa_infos_loop_eq_none que_sentence qa_data ans_vec h
    unfold make_json
    rw [hn]

/-- C10 (witness): a valid id yields a result; an out-of-bounds id above the
threshold yields none. -/
theorem c10_make_json_bounds_witness :
    (make_json "q" ⟨["a"], ["b"]⟩ [(0, 1)]).isSome = true ∧
      make_json "q" ⟨["a"], ["b"]⟩ [(1, 1)] = none :=
  ⟨(c10_make_json_bounds "q" ⟨["a"], ["b"]⟩ [(0, 1)]).1
      (by
        intro p hp hc
        rw [List.mem_singleton] at hp
        subst hp
        exact ⟨Nat.zero_lt_one, Nat.zero_lt_one⟩),
   (c10_make_json_bounds "q" ⟨["a"], ["b"]⟩ [(1, 1)]).2
      ⟨(1, 1), List.mem_singleton.mpr rfl, by norm_num, Or.inl (le_refl 1)⟩⟩

/-! ## Claim C6: predict mode requires a query sentence -/

/-- C6: with the correct access key and mode `"p"`, an empty or absent
query sentence is an error and no mode is produced, while a nonempty query
sentence yields the `Predict` mode carrying exactly that string. -/
theorem c6_predict_mode (event : Event)
    (hk : event.pkey = some "nango7_ai_nango_kun")
    (hm : event.mode = some "p") :
    (event.que_sentence.getD "" = "" →
      ExecMode.new event = Except.error "予測時は、質問文を入力してください。") ∧
    (event.que_sentence.getD "" ≠ "" →
      ExecMode.new event = Except.ok (ExecMode.Predict (event.que_sentence.getD ""))) := by
  unfold ExecMode.new
  rw [hk, hm]
  rw [if_neg (by decide), if_neg (by decide),
    if_pos (show (some "p").getD "" = "p" from rfl)]
  constructor
  · intro h
    rw [h, if_neg (by decide)]
  · intro h
    rw [if_pos (string_length_pos_of_ne _ h)]

/-- C6 (witness): the two branches at concrete events. -/
theorem c6_predict_mode_witness :
    ExecMode.new ⟨some "p", some "hello", some "nango7_ai_nango_kun"⟩
        = Except.ok (ExecMode.Predict "hello")
    ∧ ExecMode.new ⟨some "p", none, some "nango7_ai_nango_kun"⟩
        = Except.error "予測時は、質問文を入力してください。" :=
  ⟨(c6_predict_mode ⟨some "p", some "hello", some "nango7_ai_nango_kun"⟩ rfl rfl).2
      (by decide),
   (c6_predict_mode ⟨some "p", none, some "nango7_ai_nango_kun"⟩ rfl rfl).1 rfl⟩

/-! ## Claim C9: the access-key gate -/

/-- C9: any event whose `pkey` field is absent, not a string, empty, or a
string other than the fixed access key is rejected with exactly the error
`"Not executable"`, whatever its mode and query fields: the key is checked
before mode validation, so no mode error can be reported. -/
theorem c9_pkey_rejected (event : Event)
    (h : event.pkey.getD "" ≠ "nango7_ai_nango_kun") :
    ExecMode.new event = Except.error "Not executable" := by
  unfold ExecMode.new
  rw [show STR_PKEY = "nango7_ai_nango_kun" from rfl, if_pos (Or.inr h)]

/-- C9 (witness): a wrong key with a valid mode is still rejected with the
key error, not a mode error. -/
theorem c9_pkey_rejected_witness :
    ExecMode.new ⟨some "l", some "x", some "abc"⟩
      = Except.error "Not executable" :=
  c9_pkey_rejected ⟨some "l", some "x", some "abc"⟩ (by decide)

/-! ## Claim C2: what a failed training run leaves behind -/

/-- C2 (counterexample): a training run in which the tokenized-corpus write
succeeds and the model write then fails aborts with an error, yet the
tokenized-corpus table has already been overwritten — a failed run does not
leave every persisted resource unmodified. -/
theorem c2_learn_counterexample :
    (learn (fun _ => some [['q']]) (fun _ => (⟨[], []⟩ : TfIdf Str)) (fun s => s)
        (some ⟨["q"], ["a"]⟩) true false [] [] ⟨['x'], ['y']⟩).2 = false
    ∧ (learn (fun _ => some [['q']]) (fun _ => (⟨[], []⟩ : TfIdf Str)) (fun s => s)
        (some ⟨["q"], ["a"]⟩) true false [] [] ⟨['x'], ['y']⟩).1 ≠ ⟨['x'], ['y']⟩ := by
  decide

/-- C2 (amended): a training run that aborts before its first write — at
the corpus read or during tokenization — leaves both persisted resources
unmodified; once the tokenized-corpus write has begun, an abort can leave
that table already rewritten. -/
theorem c2_learn_abort_before_write {α : Type} (tok : String → Option (List Str))
    (tfidf_of : List (List Str) → TfIdf α) (fmt : α → Str) (corpus : Option QaData)
    (wordOk modelOk : Bool) (wfc mfc : Str) (st : PersistState)
    (h : corpus.bind (fun qa_data => mapMOpt tok qa_data.que_vec) = none) :
    learn tok tfidf_of fmt corpus wordOk modelOk wfc mfc st = (st, false) := by
  cases corpus with
  | none => rfl
  | some qa_data =>
    simp only [Option.some_bind] at h
    simp [learn, h]

/-- C2 (witness): a failed corpus read leaves the state untouched. -/
theorem c2_learn_abort_before_write_witness :
    learn (fun _ => some [['q']]) (fun _ => (⟨[], []⟩ : TfIdf Str)) (fun s => s)
      none true true [] [] ⟨['x'], ['y']⟩ = (⟨['x'], ['y']⟩, false) :=
  c2_learn_abort_before_write (fun _ => some [['q']])
    (fun _ => (⟨[], []⟩ : TfIdf Str)) (fun s => s) none true true [] []
    ⟨['x'], ['y']⟩ rfl

/-! ## Claim C7: sign of the smoothed idf -/

/-- C7 (counterexample): with the smoothing formula `ln(N / (1 + df))`, a
term with `df = 1 < N = 2` has idf `ln(2/2) = 0`, not positive; and a term
with `df = N = 1` has idf `ln(1/2) < 0`, not zero. -/
theorem c7_idf_counterexample : ¬(0 < idf 2 1) ∧ idf 1 1 ≠ 0 := by
  constructor
  · have h : idf 2 1 = 0 := by
      unfold idf
      norm_num
    rw [h]
    exact lt_irrefl 0
  · have h : idf 1 1 < 0 := by
      unfold idf
      apply Real.log_neg <;> norm_num
    exact ne_of_lt h

/-- C7 (amended): for `N ≥ 1` and `df ≤ N`, the smoothed idf is positive
exactly on `df + 1 < N`, zero at `df + 1 = N`, and negative at `df = N` —
the unsmoothed thresholds shifted by the `+ 1` in the denominator. -/
theorem c7_idf_sign (N df : Nat) (hN : 1 ≤ N) (hdf : df ≤ N) :
    (df + 1 < N → 0 < idf N df) ∧ (df + 1 = N → idf N df = 0) ∧
    (df = N → idf N df < 0) := by
  refine ⟨?_, ?_, ?_⟩
  · intro h
    unfold idf
    apply Real.log_pos
    rw [lt_div_iff₀ (by positivity)]
    have hc : (df : Real) + 1 < N := by exact_mod_cast h
    linarith
  · intro h
    unfold idf
    have hc : (N : Real) = 1 + df := by
      have : (df : Real) + 1 = N := by exact_mod_cast h
      linarith
    rw [hc, div_self (by positivity), Real.log_one]
  · intro h
    unfold idf
    apply Real.log_neg
    · apply div_pos
      · exact_mod_cast Nat.lt_of_lt_of_le Nat.zero_lt_one hN
      · positivity
    · rw [div_lt_one (by positivity)]
      subst h
      have : (0 : Real) < 1 := one_pos
      linarith

/-- C7 (witness): the amended signs at `N = 3` with `df = 1, 2, 3`. -/
theorem c7_idf_sign_witness :
    0 < idf 3 1 ∧ idf 3 2 = 0 ∧ idf 3 3 < 0 :=
  ⟨(c7_idf_sign 3 1 (by norm_num) (by norm_num)).1 (by norm_num),
   (c7_idf_sign 3 2 (by norm_num) (by norm_num)).2.1 (by norm_num),
   (c7_idf_sign 3 3 (by norm_num) (by norm_num)).2.2 rfl⟩

end NangoQa
